import Mathlib

/-!
Verification of the command-pipeline core of `src/shell.py` (class `Shell`).

Strings are modelled as `List Char`.  The Python string primitives used by the
parser (`str.split('|')`, `str.strip()`, `str.split()`, `str.endswith`) and the
two regular expressions `re.search(r'<\s*(\S+)')` / `re.sub(r'[<>]\s*\S+', '')`
are embedded as executable functions below; the orchestrator `run_cmds` is
embedded as a function producing the parent process's trace of system calls.
-/

deriving instance DecidableEq for Except

namespace ShellMock

/-- ASCII whitespace recognised by Python's `str.strip` / `str.split` and by
the regex class `\s` (on the ASCII inputs this shell deals with). -/
def isSpace (c : Char) : Bool :=
  c = ' ' ∨ c = '\t' ∨ c = '\n' ∨ c = '\r' ∨ c = '\x0b' ∨ c = '\x0c'

/-- The regex class `\S`: any non-whitespace character. -/
def notSpace (c : Char) : Bool := ! isSpace c

/-- Python `s.strip()`: remove leading and trailing whitespace. -/
def pyStrip (l : List Char) : List Char :=
  ((l.dropWhile isSpace).reverse.dropWhile isSpace).reverse

/-- Python `s.split(sep)` for a one-character separator: split on every
occurrence of `sep`, keeping empty pieces (`"".split('|') == ['']`). -/
def pySplitOn (sep : Char) : List Char → List (List Char)
  | [] => [[]]
  | c :: rest =>
    if c = sep then [] :: pySplitOn sep rest
    else
      match pySplitOn sep rest with
      | t :: ts => (c :: t) :: ts
      | [] => [[c]]

/-- Accumulator pass for Python `s.split()` (whitespace split, no empties).
`acc` holds the current token, reversed. -/
def tokAux : List Char → List Char → List (List Char)
  | [], acc => if acc = [] then [] else [acc.reverse]
  | c :: rest, acc =>
    if isSpace c then
      if acc = [] then tokAux rest [] else acc.reverse :: tokAux rest []
    else tokAux rest (c :: acc)

/-- Python `s.split()`: whitespace-delimited tokens, empties dropped. -/
def pySplitWS (l : List Char) : List (List Char) := tokAux l []

/-- `re.search(r'M\s*(\S+)', s)` for a marker character `M` (`<` or `>`):
find the first occurrence of `M` that is followed, after optional whitespace,
by a nonempty run of non-whitespace characters, and return that run (the
captured group).  On failure at one occurrence the scan resumes at the next. -/
def findRedir (m : Char) : List Char → Option (List Char)
  | [] => none
  | c :: rest =>
    if c = m then
      let afterWS := rest.dropWhile isSpace
      let tok := afterWS.takeWhile notSpace
      if tok = [] then findRedir m rest else some tok
    else findRedir m rest

/-- Fuelled core of `re.sub(r'[<>]\s*\S+', '', s)`: scan left to right; at a
marker followed (after optional whitespace) by a nonempty non-whitespace run,
delete the whole match and resume after it; otherwise keep the character.
Fuel `≥ length` always suffices since every step consumes at least one
character. -/
def stripRedirsF : Nat → List Char → List Char
  | 0, l => l
  | _ + 1, [] => []
  | fuel + 1, c :: rest =>
    if c = '<' ∨ c = '>' then
      let afterWS := rest.dropWhile isSpace
      if afterWS = [] then c :: stripRedirsF fuel rest
      else stripRedirsF fuel (afterWS.dropWhile notSpace)
    else c :: stripRedirsF fuel rest

/-- `re.sub(r'[<>]\s*\S+', '', s)`. -/
def stripRedirs (l : List Char) : List Char := stripRedirsF l.length l

/-- One parsed stage: the dictionary built at `src/shell.py:64-70`. -/
structure Stage where
  cmd : List Char
  args : List (List Char)
  input : Option (List Char)
  output : Option (List Char)
  background : Bool
deriving DecidableEq, Repr

/-- Redirection extraction and tokenization for one (already `&`-handled)
segment, `src/shell.py:51-70`: regex-extract `input`/`output`, strip the
redirection matches, strip whitespace, split into `args`; a segment with no
remaining tokens yields no stage. -/
def parseStage (background : Bool) (cmd : List Char) : Option Stage :=
  let inp := findRedir '<' cmd
  let out := findRedir '>' cmd
  let parts := pySplitWS (pyStrip (stripRedirs cmd))
  match parts with
  | [] => none
  | p :: _ => some ⟨p, parts, inp, out, background⟩

/-- The diagnostic the parser writes to fd 2 before returning `False`. -/
def syntaxErrMsg : String := "-bash: syntax error near unexpected token `|'\n"

/-- The `while` loop of `Shell.parser` (`src/shell.py:37-72`) over the
`'|'`-split segments.  A trailing `&` on a non-final segment aborts with the
syntax-error diagnostic (fd 2, message) and no pipeline; on the final segment
it sets the background flag and is stripped. -/
def parserLoop : List (List Char) → Except (Nat × String) (List Stage)
  | [] => Except.ok []
  | seg :: rest =>
    let cmd := pyStrip seg
    if cmd.getLast? = some '&' then
      if rest = [] then
        match parseStage true (pyStrip cmd.dropLast) with
        | some st => Except.ok [st]
        | none => Except.ok []
      else Except.error (2, syntaxErrMsg)
    else
      match parserLoop rest with
      | Except.error e => Except.error e
      | Except.ok sts =>
        match parseStage false cmd with
        | some st => Except.ok (st :: sts)
        | none => Except.ok sts

/-- `Shell.parser` (`src/shell.py:22-72`): split the line on `'|'` and parse
each segment.  `Except.error` is the `False` return (after the fd-2 write it
carries); `Except.ok` is the list of command dictionaries. -/
def parser (line : List Char) : Except (Nat × String) (List Stage) :=
  parserLoop (pySplitOn '|' line)

end ShellMock

namespace ShellMock

/-- Posix `os.path.join(a, b)` for two components. -/
def osPathJoin (a b : List Char) : List Char :=
  if b.head? = some '/' then b
  else if a = [] ∨ a.getLast? = some '/' then a ++ b
  else a ++ '/' :: b

/-- The `for path in paths` loop of `Shell.find_executable`
(`src/shell.py:119-122`): first entry whose join with `cmd` is executable. -/
def firstExe (access : List Char → Bool) (cmd : List Char) :
    List (List Char) → Option (List Char)
  | [] => none
  | p :: ps =>
    let exe := osPathJoin p cmd
    if access exe then some exe else firstExe access cmd ps

/-- `Shell.find_executable` (`src/shell.py:103-124`).  `access` abstracts
`os.access(·, os.X_OK)` and `pathEnv` is `os.environ['PATH']`; `os.path.isabs`
on posix is "starts with `/`". -/
def find_executable (access : List Char → Bool) (pathEnv : List Char)
    (c : Stage) : Option (List Char) :=
  let cmd := c.cmd
  if cmd.head? = some '/' ∧ access cmd = true then some cmd
  else firstExe access cmd (pySplitOn ':' pathEnv)

end ShellMock

namespace ShellMock

/-- One observable action of the parent (orchestrator) process in
`Shell.run_cmds`.  The child branches (`rc == 0`) execute in other processes
and are not part of the parent's trace. -/
inductive Event where
  | pipeCreate (pr pw : Nat)
  | setInheritable (fd : Nat)
  | forkChild (pid : Nat)
  | closeFD (fd : Nat)
  | waitpid (pid status : Nat)
  | waitAny (pid status : Nat)
  | writeFD (fd : Nat) (msg : String)
deriving DecidableEq, Repr

/-- Diagnostic written at `src/shell.py:203-205` (fd 2). -/
def child1Msg (pid status : Nat) : String :=
  "Parent: Child 1 " ++ toString pid ++ " terminated with exit code "
    ++ toString status ++ "\n"

/-- Diagnostic written at `src/shell.py:231-233` (fd 1). -/
def child2Msg (pid status : Nat) : String :=
  "Parent: Child 2 " ++ toString pid ++ " terminated with exit code "
    ++ toString status ++ "\n"

/-- Diagnostic written at `src/shell.py:243-244` (fd 1). -/
def singleMsg (pid status : Nat) : String :=
  "Parent: Child " ++ toString pid ++ " terminated with exit code "
    ++ toString status ++ "\n"

/-- Background notice for a piped command, `src/shell.py:225` (fd 2). -/
def pipeBgMsg : String := "Background process (pipe)\n"

/-- Background notice for a single command, `src/shell.py:237` (fd 2). -/
def singleBgMsg : String := "Background process (single)\n"

/-- Environment of one `run_cmds` invocation: the descriptors `os.pipe()`
returns, the pids `os.fork()` returns in the parent, and the raw statuses the
wait calls observe. -/
structure OrchCfg where
  pr : Nat
  pw : Nat
  pid1 : Nat
  pid2 : Nat
  st1 : Nat
  st2 : Nat
deriving DecidableEq, Repr

/-- `Shell.run_cmds` (`src/shell.py:161-244`), parent-side trace.

Line 168, `cmd_0, cmd_1 = cmds if len(cmds) != 1 else (cmds[0], None)`,
tuple-unpacks `cmds` whenever its length is not 1, so a list of length 0 or
of length greater than 2 raises `ValueError` before any effect; this is the
`Except.error` case (no event has occurred when it is raised).  Otherwise the
returned list is the sequence of parent-side effects in program order. -/
def run_cmds (cfg : OrchCfg) (cmds : List Stage) : Except String (List Event) :=
  match cmds with
  | [] => Except.error "ValueError: not enough values to unpack"
  | [c0] =>
    Except.ok (Event.forkChild cfg.pid1 ::
      (if c0.background = true then
        [Event.writeFD 2 singleBgMsg]
      else
        Event.waitAny cfg.pid1 cfg.st1 ::
          (if cfg.st1 ≠ 0 then [Event.writeFD 1 (singleMsg cfg.pid1 cfg.st1)]
           else [])))
  | [_, c1] =>
    Except.ok
      ([Event.pipeCreate cfg.pr cfg.pw, Event.setInheritable cfg.pr,
        Event.setInheritable cfg.pw, Event.forkChild cfg.pid1,
        Event.closeFD cfg.pw, Event.waitpid cfg.pid1 cfg.st1] ++
       (if cfg.st1 ≠ 0 then [Event.writeFD 2 (child1Msg cfg.pid1 cfg.st1)]
        else []) ++
       [Event.forkChild cfg.pid2, Event.closeFD cfg.pr] ++
       (if c1.background = true then
         [Event.writeFD 2 pipeBgMsg]
       else
         Event.waitpid cfg.pid2 cfg.st2 ::
           (if cfg.st2 ≠ 0 then
             [Event.writeFD 1 (child2Msg cfg.pid2 cfg.st2)]
            else [])))
  | _ => Except.error "ValueError: too many values to unpack"

/-- The events of a successful `run_cmds` run (empty on the error case). -/
def okEvents (r : Except String (List Event)) : List Event :=
  (r.toOption).getD []

/-- Is this event a blocking wait (`os.waitpid` or `os.wait`)? -/
def isWait : Event → Bool
  | Event.waitpid _ _ => true
  | Event.waitAny _ _ => true
  | _ => false

/-- Does this event wait on the given pid? -/
def waitsOn (pid : Nat) : Event → Bool
  | Event.waitpid p _ => p == pid
  | Event.waitAny p _ => p == pid
  | _ => false

/-- Is this event a pipe creation? -/
def isPipeCreate : Event → Bool
  | Event.pipeCreate _ _ => true
  | _ => false

/-- Project a write event to its (fd, message) pair. -/
def getWrite : Event → Option (Nat × String)
  | Event.writeFD fd msg => some (fd, msg)
  | _ => none

/-- All writes a trace performs, in order. -/
def writesOf (t : List Event) : List (Nat × String) := t.filterMap getWrite

/-- The driver's dispatch test `if not parsed_cmds` (`src/shell.py:264`):
`run_cmds` is invoked only when the parser returned a nonempty list (both
`False` and `[]` are falsy in Python). -/
def driverInvokesRun (p : Except (Nat × String) (List Stage)) : Bool :=
  match p with
  | Except.error _ => false
  | Except.ok [] => false
  | Except.ok (_ :: _) => true

/-- Projections of an optional parse result, for stating per-field facts. -/
def stageInput (r : Option Stage) : Option (Option (List Char)) :=
  r.map Stage.input

def stageOutput (r : Option Stage) : Option (Option (List Char)) :=
  r.map Stage.output

def lastArg (r : Option Stage) : Option (Option (List Char)) :=
  r.map (fun st => st.args.getLast?)

/-- Does the optional last character satisfy "absent or whitespace"? -/
def lastSpaceOk (t : List Char) : Bool :=
  (t.getLast?.map isSpace).getD true

/-- Concrete orchestrator environment used by witnesses/counterexamples. -/
def cfgEx : OrchCfg := ⟨3, 4, 100, 101, 0, 0⟩

/-- Concrete stages used by witnesses/counterexamples. -/
def stCat : Stage := ⟨"cat".data, ["cat".data], none, none, false⟩

def stWc : Stage := ⟨"wc".data, ["wc".data], none, none, false⟩

def stLs : Stage := ⟨"ls".data, ["ls".data], none, none, false⟩

def stSleepBg : Stage := ⟨"sleep".data, ["sleep".data, "10".data], none, none, true⟩

/-- Concrete executability oracle: only `/bin/ls` is executable. -/
def accessEx : List Char → Bool := fun l => l == "/bin/ls".data

end ShellMock

namespace ShellMock

/-- Computation rule for `okEvents` on a successful run. -/
theorem okEvents_ok (l : List Event) : okEvents (Except.ok l) = l := rfl

/-- `firstExe` returns the join with the first entry whose join is
executable. -/
theorem firstExe_eq_find (access : List Char → Bool) (cmd : List Char)
    (l : List (List Char)) :
    firstExe access cmd l =
      (l.find? (fun p => access (osPathJoin p cmd))).map
        (fun p => osPathJoin p cmd) := by
  induction l with
  | nil => rfl
  | cons p ps ih =>
    by_cases h : access (osPathJoin p cmd) = true
    · simp [firstExe, List.find?_cons, h]
    · simp only [Bool.not_eq_true] at h
      simp [firstExe, List.find?_cons, h, ih]

end ShellMock

namespace ShellMock

/-- C1 counterexample: on the three-stage pipeline `[stCat, stWc, stLs]` the
orchestrator fails (the tuple unpacking at `src/shell.py:168` raises
`ValueError`), and in particular does not behave as on the two-stage prefix
`[stCat, stWc]`. -/
theorem c1_counterexample :
    run_cmds cfgEx [stCat, stWc, stLs] =
        Except.error "ValueError: too many values to unpack" ∧
      run_cmds cfgEx [stCat, stWc, stLs] ≠ run_cmds cfgEx [stCat, stWc] := by
  constructor
  · rfl
  · decide

/-- C1 (amended): for every parsed pipeline with more than two stages,
`run_cmds` fails immediately — the tuple unpacking on its first line raises
`ValueError` before any process is created — rather than executing the first
two stages. -/
theorem c1_amended (cfg : OrchCfg) (cmds : List Stage)
    (h : 2 < cmds.length) :
    run_cmds cfg cmds = Except.error "ValueError: too many values to unpack" := by
  rcases cmds with _ | ⟨a, _ | ⟨b, _ | ⟨c, rest⟩⟩⟩
  · simp at h
  · simp at h
  · simp at h
  · rfl

/-- Witness for `c1_amended` at the concrete three-stage pipeline. -/
theorem c1_amended_witness :
    2 < ([stCat, stWc, stLs] : List Stage).length ∧
      run_cmds cfgEx [stCat, stWc, stLs] =
        Except.error "ValueError: too many values to unpack" :=
  ⟨by decide, c1_amended cfgEx [stCat, stWc, stLs] (by decide)⟩

/-- C2 counterexample: on the empty pipeline `run_cmds` does not return as a
no-op; the tuple unpacking at `src/shell.py:168` raises `ValueError`. -/
theorem c2_counterexample :
    run_cmds cfgEx [] = Except.error "ValueError: not enough values to unpack" :=
  rfl

/-- C2 (amended): `run_cmds` on the empty pipeline fails with an unpacking
`ValueError` (raised before any process creation or write) rather than
returning as a no-op; the empty-pipeline no-op is enforced upstream by the
driver, whose `if not parsed_cmds` test never invokes `run_cmds` on an empty
parse result. -/
theorem c2_amended :
    (∀ cfg : OrchCfg,
        run_cmds cfg [] =
          Except.error "ValueError: not enough values to unpack") ∧
      driverInvokesRun (Except.ok []) = false :=
  ⟨fun _ => rfl, rfl⟩

/-- C5: `find_executable` returns the name itself when it is an absolute path
executable by the current user; otherwise it returns the platform join
`entry/name` for the first entry, in listed order of the search-path value
split on `:`, whose join with the name is executable; and it returns `none`
when no candidate matches. -/
theorem c5_find_executable (access : List Char → Bool) (pathEnv : List Char)
    (c : Stage) :
    (c.cmd.head? = some '/' → access c.cmd = true →
        find_executable access pathEnv c = some c.cmd) ∧
      (¬ (c.cmd.head? = some '/' ∧ access c.cmd = true) →
        find_executable access pathEnv c =
          ((pySplitOn ':' pathEnv).find?
              (fun p => access (osPathJoin p c.cmd))).map
            (fun p => osPathJoin p c.cmd)) ∧
      (¬ (c.cmd.head? = some '/' ∧ access c.cmd = true) →
        (∀ p ∈ pySplitOn ':' pathEnv, access (osPathJoin p c.cmd) = false) →
        find_executable access pathEnv c = none) := by
  refine ⟨fun h1 h2 => ?_, fun h => ?_, fun h hall => ?_⟩
  · simp [find_executable, h1, h2]
  · simp only [find_executable, if_neg h]
    exact firstExe_eq_find access c.cmd _
  · simp only [find_executable, if_neg h]
    rw [firstExe_eq_find access c.cmd _, List.find?_eq_none.mpr]
    · rfl
    · intro p hp
      simp [hall p hp]

/-- Witness for `c5_find_executable`: with only `/bin/ls` executable and
search path `/usr:/bin`, resolving `ls` yields `/bin/ls`. -/
theorem c5_witness :
    (¬ (stLs.cmd.head? = some '/' ∧ accessEx stLs.cmd = true)) ∧
      find_executable accessEx "/usr:/bin".data stLs = some "/bin/ls".data := by
  refine ⟨by decide, ?_⟩
  rw [(c5_find_executable accessEx "/usr:/bin".data stLs).2.1 (by decide)]
  decide

/-- C6 counterexample: a two-stage background pipeline on which the
orchestrator does perform a blocking wait on the process it created for
stage 1 (`os.waitpid` at `src/shell.py:200` runs before the background check). -/
theorem c6_counterexample :
    stSleepBg.background = true ∧
      Event.waitpid 100 0 ∈ okEvents (run_cmds cfgEx [stCat, stSleepBg]) := by
  decide

/-- C6 (amended): for every background pipeline the orchestrator never waits
on the final process and control returns to the caller right after the last
fork and the close of the unused pipe end (the trace ends with the second
fork, the read-end close and the background notice; a single-stage background
trace is just the fork and the notice); however, for a two-stage background
pipeline the orchestrator still performs a blocking wait on stage 1 before
spawning stage 2 — it is the only wait in the trace. -/
theorem c6_amended (cfg : OrchCfg) (c0 c1 c : Stage)
    (h1 : c1.background = true) (h2 : c.background = true) :
    okEvents (run_cmds cfg [c0, c1]) =
        [Event.pipeCreate cfg.pr cfg.pw, Event.setInheritable cfg.pr,
          Event.setInheritable cfg.pw, Event.forkChild cfg.pid1,
          Event.closeFD cfg.pw, Event.waitpid cfg.pid1 cfg.st1] ++
        (if cfg.st1 ≠ 0 then [Event.writeFD 2 (child1Msg cfg.pid1 cfg.st1)]
         else []) ++
        [Event.forkChild cfg.pid2, Event.closeFD cfg.pr,
          Event.writeFD 2 pipeBgMsg] ∧
      (okEvents (run_cmds cfg [c0, c1])).filter isWait =
        [Event.waitpid cfg.pid1 cfg.st1] ∧
      okEvents (run_cmds cfg [c]) =
        [Event.forkChild cfg.pid1, Event.writeFD 2 singleBgMsg] ∧
      (okEvents (run_cmds cfg [c])).filter isWait = [] := by
  refine ⟨?_, ?_, ?_, ?_⟩ <;>
    by_cases hst : cfg.st1 = 0 <;>
      simp [run_cmds, okEvents_ok, h1, h2, hst, isWait, List.filter_append]

/-- Witness for `c6_amended` at a concrete two-stage background pipeline. -/
theorem c6_amended_witness :
    stSleepBg.background = true ∧
      (okEvents (run_cmds cfgEx [stCat, stSleepBg])).filter isWait =
        [Event.waitpid 100 0] ∧
      (okEvents (run_cmds cfgEx [stSleepBg])).filter isWait = [] :=
  ⟨rfl, (c6_amended cfgEx stCat stSleepBg stSleepBg rfl rfl).2.1,
    (c6_amended cfgEx stCat stSleepBg stSleepBg rfl rfl).2.2.2⟩

/-- C7: for every pipeline whose final stage has the background flag set, the
orchestrator writes the background notice to fd 2 and never invokes a wait
primitive on the last process it created, in both the two-stage and the
single-stage cases. -/
theorem c7_background_no_final_wait (cfg : OrchCfg) (c0 c1 c : Stage)
    (hne : cfg.pid1 ≠ cfg.pid2)
    (h1 : c1.background = true) (h2 : c.background = true) :
    (Event.writeFD 2 pipeBgMsg ∈ okEvents (run_cmds cfg [c0, c1]) ∧
        (okEvents (run_cmds cfg [c0, c1])).countP (waitsOn cfg.pid2) = 0) ∧
      (Event.writeFD 2 singleBgMsg ∈ okEvents (run_cmds cfg [c]) ∧
        (okEvents (run_cmds cfg [c])).countP (waitsOn cfg.pid1) = 0) := by
  refine ⟨⟨?_, ?_⟩, ⟨?_, ?_⟩⟩ <;>
    by_cases hst : cfg.st1 = 0 <;>
      simp [run_cmds, okEvents_ok, h1, h2, hst, waitsOn, List.countP_append,
        List.countP_cons, hne]

/-- Witness for `c7_background_no_final_wait` at concrete pipelines. -/
theorem c7_witness :
    (cfgEx.pid1 ≠ cfgEx.pid2 ∧ stSleepBg.background = true) ∧
      (Event.writeFD 2 pipeBgMsg ∈ okEvents (run_cmds cfgEx [stCat, stSleepBg]) ∧
          (okEvents (run_cmds cfgEx [stCat, stSleepBg])).countP
            (waitsOn cfgEx.pid2) = 0) ∧
        (Event.writeFD 2 singleBgMsg ∈ okEvents (run_cmds cfgEx [stSleepBg]) ∧
          (okEvents (run_cmds cfgEx [stSleepBg])).countP
            (waitsOn cfgEx.pid1) = 0) :=
  ⟨⟨by decide, rfl⟩,
    c7_background_no_final_wait cfgEx stCat stSleepBg stSleepBg (by decide) rfl rfl⟩

/-- C8: the complete write behavior of `run_cmds`.  A waited-on child with
non-zero raw status produces exactly one diagnostic naming its pid and status
— fd 2 for stage 1 of a two-stage pipeline, fd 1 for the final stage and for
a single-stage pipeline — and a zero status produces none (the only other
write is the background notice). -/
theorem c8_diagnostics (cfg : OrchCfg) (c0 c1 c : Stage) :
    writesOf (okEvents (run_cmds cfg [c0, c1])) =
        (if cfg.st1 ≠ 0 then [(2, child1Msg cfg.pid1 cfg.st1)] else []) ++
        (if c1.background = true then [(2, pipeBgMsg)]
         else if cfg.st2 ≠ 0 then [(1, child2Msg cfg.pid2 cfg.st2)] else []) ∧
      writesOf (okEvents (run_cmds cfg [c])) =
        (if c.background = true then [(2, singleBgMsg)]
         else if cfg.st1 ≠ 0 then [(1, singleMsg cfg.pid1 cfg.st1)] else []) := by
  constructor <;>
    by_cases h1 : c1.background = true <;>
      by_cases h2 : c.background = true <;>
        by_cases hs1 : cfg.st1 = 0 <;>
          by_cases hs2 : cfg.st2 = 0 <;>
            simp [run_cmds, okEvents_ok, writesOf, getWrite, h1, h2, hs1, hs2]

/-- C9: for every two-stage pipeline, foreground or background, exactly one
pipe is created, and both of its descriptors are closed in the parent by the
time `run_cmds` returns. -/
theorem c9_pipe_closed (cfg : OrchCfg) (c0 c1 : Stage) :
    (okEvents (run_cmds cfg [c0, c1])).countP isPipeCreate = 1 ∧
      Event.closeFD cfg.pw ∈ okEvents (run_cmds cfg [c0, c1]) ∧
      Event.closeFD cfg.pr ∈ okEvents (run_cmds cfg [c0, c1]) := by
  refine ⟨?_, ?_, ?_⟩ <;>
    by_cases h1 : c1.background = true <;>
      by_cases hs1 : cfg.st1 = 0 <;>
        by_cases hs2 : cfg.st2 = 0 <;>
          simp [run_cmds, okEvents_ok, isPipeCreate, List.countP_append,
            List.countP_cons, h1, hs1, hs2]

end ShellMock

namespace ShellMock

/-- A character that is not whitespace and not a redirection marker. -/
def PlainChar (c : Char) : Prop := isSpace c = false ∧ c ≠ '<' ∧ c ≠ '>'

instance (c : Char) : Decidable (PlainChar c) := by
  unfold PlainChar; infer_instance

theorem PlainChar.notSpace {c : Char} (h : PlainChar c) : notSpace c = true := by
  simp [ShellMock.notSpace, h.1]

theorem PlainChar.not_space {c : Char} (h : PlainChar c) : ¬ isSpace c = true := by
  simp [h.1]

theorem PlainChar.not_marker {c : Char} (h : PlainChar c) :
    ¬ (c = '<' ∨ c = '>') := by
  rcases h with ⟨-, h2, h3⟩
  rintro (rfl | rfl) <;> simp at h2 h3

theorem space_isSpace : isSpace ' ' = true := by decide

theorem marker_not_space {m : Char} (hm : m = '<' ∨ m = '>') :
    isSpace m = false := by
  rcases hm with rfl | rfl <;> decide

/-- Splitting a whitespace tokenization at a whitespace character. -/
theorem tokAux_append_space {b : Char} (hb : isSpace b = true) :
    ∀ (t : List Char) (acc : List Char) (u : List Char),
      tokAux (t ++ b :: u) acc = tokAux t acc ++ tokAux u [] := by
  intro t
  induction t with
  | nil =>
    intro acc u
    by_cases hacc : acc = [] <;> simp [tokAux, hb, hacc]
  | cons c t ih =>
    intro acc u
    by_cases hc : isSpace c = true
    · by_cases hacc : acc = [] <;> simp [tokAux, hc, hacc, ih]
    · simp [tokAux, hc, ih]

/-- A run of whitespace contributes no tokens. -/
theorem tokAux_all_space {ws : List Char} (h : ∀ c ∈ ws, isSpace c = true) :
    tokAux ws [] = [] := by
  induction ws with
  | nil => rfl
  | cons c t ih =>
    have hc := h c (by simp)
    simp only [tokAux, hc, if_pos rfl, if_true]
    exact ih (fun d hd => h d (by simp [hd]))

/-- Trailing whitespace does not change the tokenization. -/
theorem tokAux_append_ws {ws : List Char} (h : ∀ c ∈ ws, isSpace c = true) :
    ∀ (t : List Char) (acc : List Char), tokAux (t ++ ws) acc = tokAux t acc := by
  rcases ws with _ | ⟨b, ws⟩
  · simp
  · intro t acc
    rw [tokAux_append_space (h b (by simp)) t acc ws,
      tokAux_all_space (fun d hd => h d (by simp [hd])), List.append_nil]

/-- A nonempty all-non-whitespace list is one token. -/
theorem tokAux_all_notSpace {w : List Char} (h : ∀ c ∈ w, isSpace c = false) :
    ∀ acc : List Char, w ≠ [] ∨ acc ≠ [] → tokAux w acc = [acc.reverse ++ w] := by
  induction w with
  | nil =>
    intro acc hne
    rcases hne with hne | hne
    · simp at hne
    · simp [tokAux, hne]
  | cons c t ih =>
    intro acc _
    have hc := h c (by simp)
    simp only [tokAux, hc, Bool.false_eq_true, if_false]
    rw [ih (fun d hd => h d (by simp [hd])) (c :: acc) (Or.inr (by simp))]
    simp

/-- Leading whitespace does not change the tokenization. -/
theorem tokAux_dropWhile (l : List Char) :
    tokAux (l.dropWhile isSpace) [] = tokAux l [] := by
  induction l with
  | nil => rfl
  | cons c t ih =>
    by_cases hc : isSpace c = true
    · rw [List.dropWhile_cons_of_pos hc, ih]
      simp [tokAux, hc]
    · rw [List.dropWhile_cons_of_neg (by simp [hc])]

/-- Python's `strip` before `split()` is a no-op for the token list. -/
theorem pySplitWS_pyStrip (l : List Char) :
    pySplitWS (pyStrip l) = pySplitWS l := by
  unfold pyStrip pySplitWS
  set A := l.dropWhile isSpace with hA
  have hdec : A = (A.reverse.dropWhile isSpace).reverse
      ++ (A.reverse.takeWhile isSpace).reverse := by
    rw [← List.reverse_append, List.takeWhile_append_dropWhile, List.reverse_reverse]
  have hws : ∀ c ∈ (A.reverse.takeWhile isSpace).reverse, isSpace c = true := by
    intro c hc
    rw [List.mem_reverse] at hc
    exact List.mem_takeWhile_imp hc
  calc tokAux (A.reverse.dropWhile isSpace).reverse []
      = tokAux ((A.reverse.dropWhile isSpace).reverse
          ++ (A.reverse.takeWhile isSpace).reverse) [] :=
        (tokAux_append_ws hws _ []).symm
    _ = tokAux A [] := by rw [← hdec]
    _ = tokAux l [] := tokAux_dropWhile l

/-- `findRedir` skips a prefix not containing the marker. -/
theorem findRedir_append {m : Char} {xs : List Char} (h : m ∉ xs)
    (ys : List Char) : findRedir m (xs ++ ys) = findRedir m ys := by
  induction xs with
  | nil => rfl
  | cons c t ih =>
    have hc : ¬ c = m := fun hcm => h (by simp [hcm])
    simp only [List.cons_append, findRedir, if_neg hc]
    exact ih (fun ht => h (by simp [ht]))

/-- `findRedir` fails on a list not containing the marker. -/
theorem findRedir_not_mem {m : Char} {l : List Char} (h : m ∉ l) :
    findRedir m l = none := by
  induction l with
  | nil => rfl
  | cons c t ih =>
    have hc : ¬ c = m := fun hcm => h (by simp [hcm])
    simp only [findRedir, if_neg hc]
    exact ih (fun ht => h (by simp [ht]))

/-- The fuel argument of `stripRedirsF` is irrelevant once it covers the
length of the list. -/
theorem stripRedirsF_fuel :
    ∀ (f g : Nat) (l : List Char), l.length ≤ f → l.length ≤ g →
      stripRedirsF f l = stripRedirsF g l := by
  intro f
  induction f with
  | zero =>
    intro g l hf _
    have : l = [] := List.length_eq_zero.mp (Nat.le_zero.mp hf)
    subst this
    cases g <;> rfl
  | succ f ih =>
    intro g l hf hg
    rcases l with _ | ⟨c, rest⟩
    · cases g <;> rfl
    · rcases g with _ | g
      · simp at hg
      · have hf' : rest.length ≤ f := Nat.le_of_succ_le_succ hf
        have hg' : rest.length ≤ g := Nat.le_of_succ_le_succ hg
        by_cases hc : c = '<' ∨ c = '>'
        · by_cases hws : rest.dropWhile isSpace = []
          · simp only [stripRedirsF, if_pos hc, hws]
            simp [ih g rest hf' hg']
          · simp only [stripRedirsF, if_pos hc, if_neg hws]
            have hlen : ((rest.dropWhile isSpace).dropWhile notSpace).length
                ≤ rest.length :=
              Nat.le_trans
                ((List.dropWhile_sublist notSpace).length_le)
                ((List.dropWhile_sublist isSpace).length_le)
            exact ih g _ (Nat.le_trans hlen hf') (Nat.le_trans hlen hg')
        · simp only [stripRedirsF, if_neg hc]
          rw [ih g rest hf' hg']

/-- Step rule: a non-marker character is kept. -/
theorem stripRedirs_cons_plain {c : Char} (hc : ¬ (c = '<' ∨ c = '>'))
    (rest : List Char) : stripRedirs (c :: rest) = c :: stripRedirs rest := by
  simp [stripRedirs, stripRedirsF, hc]

/-- Step rule: a marker followed only by whitespace is kept (the regex match
needs a nonempty `\S+`). -/
theorem stripRedirs_cons_bare {c : Char} (hc : c = '<' ∨ c = '>')
    {rest : List Char} (hws : rest.dropWhile isSpace = []) :
    stripRedirs (c :: rest) = c :: stripRedirs rest := by
  simp [stripRedirs, stripRedirsF, hc, hws]

/-- Step rule: a marker with a following path is deleted together with the
whitespace and the path, and scanning resumes after the match. -/
theorem stripRedirs_cons_match {c : Char} (hc : c = '<' ∨ c = '>')
    {rest : List Char} (hws : rest.dropWhile isSpace ≠ []) :
    stripRedirs (c :: rest) =
      stripRedirs ((rest.dropWhile isSpace).dropWhile notSpace) := by
  have hlen : ((rest.dropWhile isSpace).dropWhile notSpace).length
      ≤ rest.length :=
    Nat.le_trans ((List.dropWhile_sublist notSpace).length_le)
      ((List.dropWhile_sublist isSpace).length_le)
  simp only [stripRedirs, List.length_cons, stripRedirsF, if_pos hc, if_neg hws]
  exact stripRedirsF_fuel rest.length _ _ hlen (Nat.le_refl _)

/-- `stripRedirs` keeps a marker-free prefix verbatim. -/
theorem stripRedirs_append {xs : List Char}
    (h : ∀ c ∈ xs, ¬ (c = '<' ∨ c = '>')) (ys : List Char) :
    stripRedirs (xs ++ ys) = xs ++ stripRedirs ys := by
  induction xs with
  | nil => rfl
  | cons c t ih =>
    rw [List.cons_append, stripRedirs_cons_plain (h c (by simp)),
      ih (fun d hd => h d (by simp [hd]))]
    rfl

/-- Computation rule on the empty list. -/
theorem stripRedirs_nil : stripRedirs [] = [] := rfl

/-- `stripRedirs` is the identity on marker-free input. -/
theorem stripRedirs_no_marker {l : List Char}
    (h : ∀ c ∈ l, ¬ (c = '<' ∨ c = '>')) : stripRedirs l = l := by
  have := stripRedirs_append h []
  simpa [stripRedirs_nil] using this

end ShellMock

namespace ShellMock

/-- Computation rule for `findRedir` at an occurrence of the marker. -/
theorem findRedir_cons_self (m : Char) (u : List Char) :
    findRedir m (m :: u) =
      (if (u.dropWhile isSpace).takeWhile notSpace = [] then findRedir m u
       else some ((u.dropWhile isSpace).takeWhile notSpace)) := by
  simp [findRedir]

/-- Computation rule for `findRedir` at a non-marker character. -/
theorem findRedir_cons_ne {m c : Char} (h : ¬ c = m) (u : List Char) :
    findRedir m (c :: u) = findRedir m u := by
  simp [findRedir, h]

/-- `takeWhile` keeps a list all of whose elements satisfy the predicate. -/
theorem takeWhile_of_all {p : Char → Bool} :
    ∀ (l : List Char), (∀ c ∈ l, p c = true) → l.takeWhile p = l
  | [], _ => rfl
  | c :: t, h => by
    rw [List.takeWhile_cons_of_pos (h c (by simp)),
      takeWhile_of_all t (fun d hd => h d (by simp [hd]))]

/-- `dropWhile` empties a list all of whose elements satisfy the predicate. -/
theorem dropWhile_of_all {p : Char → Bool} (l : List Char)
    (h : ∀ c ∈ l, p c = true) : l.dropWhile p = [] :=
  List.dropWhile_eq_nil_iff.mpr h

/-- Whitespace characters are not redirection markers. -/
theorem space_not_marker {c : Char} (h : isSpace c = true) :
    ¬ (c = '<' ∨ c = '>') := by
  rintro (rfl | rfl) <;> exact absurd h (by decide)

/-- Parse computation for a segment consisting of a command word and two
whitespace-delimited redirection clauses `m1 path1` and `m2 path2` built from
plain characters: each marker finds its own path, and after stripping, only
the command word survives tokenization. -/
theorem parse_two_redirs (m1 m2 : Char) (hm1 : m1 = '<' ∨ m1 = '>')
    (hm2 : m2 = '<' ∨ m2 = '>') (hne : m1 ≠ m2)
    (w a b : List Char) (hw : w ≠ []) (ha : a ≠ []) (hb : b ≠ [])
    (hwP : ∀ c ∈ w, PlainChar c) (haP : ∀ c ∈ a, PlainChar c)
    (hbP : ∀ c ∈ b, PlainChar c) :
    findRedir m1 (w ++ ' ' :: m1 :: ' ' :: (a ++ ' ' :: m2 :: ' ' :: b))
        = some a ∧
      findRedir m2 (w ++ ' ' :: m1 :: ' ' :: (a ++ ' ' :: m2 :: ' ' :: b))
        = some b ∧
      pySplitWS (pyStrip (stripRedirs
        (w ++ ' ' :: m1 :: ' ' :: (a ++ ' ' :: m2 :: ' ' :: b)))) = [w] := by
  have hm1w : m1 ∉ w := fun hmem => (hwP m1 hmem).not_marker hm1
  have hsp1 : ¬ (' ' = m1) := fun h => (space_not_marker (by decide)) (h ▸ hm1)
  have hsp2 : ¬ (' ' = m2) := fun h => (space_not_marker (by decide)) (h ▸ hm2)
  have haNS : ∀ c ∈ a, notSpace c = true := fun c hc => (haP c hc).notSpace
  have hbNS : ∀ c ∈ b, notSpace c = true := fun c hc => (hbP c hc).notSpace
  have hdwa : List.dropWhile isSpace (a ++ ' ' :: m2 :: ' ' :: b)
      = a ++ ' ' :: m2 :: ' ' :: b := by
    rcases a with _ | ⟨a0, a'⟩
    · exact absurd rfl ha
    · rw [List.cons_append]
      exact List.dropWhile_cons_of_neg (by simp [(haP a0 (by simp)).1])
  have htwa : List.takeWhile notSpace (a ++ ' ' :: m2 :: ' ' :: b) = a := by
    rw [List.takeWhile_append_of_pos haNS,
      List.takeWhile_cons_of_neg (by decide), List.append_nil]
  have h1 : findRedir m1 (w ++ ' ' :: m1 :: ' ' :: (a ++ ' ' :: m2 :: ' ' :: b))
      = some a := by
    rw [findRedir_append hm1w, findRedir_cons_ne hsp1, findRedir_cons_self,
      List.dropWhile_cons_of_pos (by decide), hdwa, htwa, if_neg ha]
  have hassoc : w ++ ' ' :: m1 :: ' ' :: (a ++ ' ' :: m2 :: ' ' :: b)
      = (w ++ ' ' :: m1 :: ' ' :: a) ++ (' ' :: m2 :: ' ' :: b) := by
    simp
  have hm2nm : m2 ∉ (w ++ ' ' :: m1 :: ' ' :: a) := by
    intro hmem
    simp only [List.mem_append, List.mem_cons] at hmem
    rcases hmem with hmem | hmem | hmem | hmem | hmem
    · exact (hwP m2 hmem).not_marker hm2
    · exact hsp2 hmem.symm
    · exact hne hmem.symm
    · exact hsp2 hmem.symm
    · exact (haP m2 hmem).not_marker hm2
  have hdwb : List.dropWhile isSpace (' ' :: b) = b := by
    rw [List.dropWhile_cons_of_pos (by decide)]
    rcases b with _ | ⟨b0, b'⟩
    · rfl
    · exact List.dropWhile_cons_of_neg (by simp [(hbP b0 (by simp)).1])
  have h2 : findRedir m2 (w ++ ' ' :: m1 :: ' ' :: (a ++ ' ' :: m2 :: ' ' :: b))
      = some b := by
    rw [hassoc, findRedir_append hm2nm, findRedir_cons_ne hsp2,
      findRedir_cons_self, hdwb, takeWhile_of_all b hbNS, if_neg hb]
  have hplain : ∀ c ∈ (w ++ [' ']), ¬ (c = '<' ∨ c = '>') := by
    intro c hc
    rw [List.mem_append] at hc
    rcases hc with hc | hc
    · exact (hwP c hc).not_marker
    · simp only [List.mem_singleton] at hc
      subst hc
      exact space_not_marker (by decide)
  have hassoc2 : w ++ ' ' :: m1 :: ' ' :: (a ++ ' ' :: m2 :: ' ' :: b)
      = (w ++ [' ']) ++ (m1 :: ' ' :: (a ++ ' ' :: m2 :: ' ' :: b)) := by
    simp
  have hr1 : List.dropWhile isSpace (' ' :: (a ++ ' ' :: m2 :: ' ' :: b))
      = a ++ ' ' :: m2 :: ' ' :: b := by
    rw [List.dropWhile_cons_of_pos (by decide), hdwa]
  have hr1ne : List.dropWhile isSpace (' ' :: (a ++ ' ' :: m2 :: ' ' :: b))
      ≠ [] := by
    rw [hr1]
    rcases a with _ | ⟨a0, a'⟩
    · exact absurd rfl ha
    · simp
  have hdwn : (a ++ ' ' :: m2 :: ' ' :: b).dropWhile notSpace
      = ' ' :: m2 :: ' ' :: b := by
    rw [List.dropWhile_append_of_pos haNS,
      List.dropWhile_cons_of_neg (by decide)]
  have hr2ne : List.dropWhile isSpace (' ' :: b) ≠ [] := by
    rw [hdwb]
    exact hb
  have hstrip :
      stripRedirs (w ++ ' ' :: m1 :: ' ' :: (a ++ ' ' :: m2 :: ' ' :: b))
        = w ++ [' ', ' '] := by
    rw [hassoc2, stripRedirs_append hplain,
      stripRedirs_cons_match hm1 hr1ne, hr1, hdwn,
      stripRedirs_cons_plain (space_not_marker (by decide)),
      stripRedirs_cons_match hm2 hr2ne, hdwb, dropWhile_of_all b hbNS,
      stripRedirs_nil]
    simp
  have htok :
      pySplitWS (pyStrip (stripRedirs
        (w ++ ' ' :: m1 :: ' ' :: (a ++ ' ' :: m2 :: ' ' :: b)))) = [w] := by
    rw [hstrip, pySplitWS_pyStrip]
    show tokAux (w ++ [' ', ' ']) [] = [w]
    have hws2 : w ++ ([' ', ' '] : List Char) = w ++ ' ' :: [' '] := rfl
    rw [hws2, tokAux_append_space (by decide) w [] [' ']]
    rw [tokAux_all_notSpace (fun c hc => (hwP c hc).1) [] (Or.inl hw)]
    have hsp : tokAux [' '] ([] : List Char) = [] := by decide
    rw [hsp]
    simp
  exact ⟨h1, h2, htok⟩

end ShellMock

namespace ShellMock

/-- C3: for every input line in which some segment other than the final one
ends with the background marker `&` after trimming, `parser` fails with the
syntax-error diagnostic written to fd 2, and produces no pipeline (not even a
partial one). -/
theorem c3_amp_before_pipe (line : List Char) (pre : List (List Char))
    (s : List Char) (post : List (List Char))
    (hsplit : pySplitOn '|' line = pre ++ s :: post) (hpost : post ≠ [])
    (hamp : (pyStrip s).getLast? = some '&') :
    parser line = Except.error (2, syntaxErrMsg) := by
  unfold parser
  rw [hsplit]
  clear hsplit
  induction pre with
  | nil =>
    rw [List.nil_append]
    show parserLoop (s :: post) = Except.error (2, syntaxErrMsg)
    simp only [parserLoop]
    rw [if_pos hamp, if_neg hpost]
  | cons h t ih =>
    rw [List.cons_append]
    show parserLoop (h :: (t ++ s :: post)) = Except.error (2, syntaxErrMsg)
    simp only [parserLoop]
    by_cases hh : (pyStrip h).getLast? = some '&'
    · rw [if_pos hh, if_neg (by simp)]
    · rw [if_neg hh, ih]

/-- Witness for `c3_amp_before_pipe` on the spec's example line
`"cmd1 & | cmd2"`. -/
theorem c3_witness :
    (pySplitOn '|' "cmd1 & | cmd2".data =
        [] ++ "cmd1 & ".data :: [" cmd2".data] ∧
      (pyStrip "cmd1 & ".data).getLast? = some '&') ∧
      parser "cmd1 & | cmd2".data = Except.error (2, syntaxErrMsg) :=
  ⟨⟨by decide, by decide⟩,
    c3_amp_before_pipe "cmd1 & | cmd2".data [] "cmd1 & ".data
      [" cmd2".data] (by decide) (by decide) (by decide)⟩

/-- C4: `"cat < in.txt > out.txt"` and `"cat > out.txt < in.txt"` both parse
to the Stage with `cmd="cat"`, `args=["cat"]`, `input="in.txt"`,
`output="out.txt"`; and in general, for a segment made of a command word and
two whitespace-delimited redirection clauses over plain (non-whitespace,
non-marker) characters, extraction is independent of the order of the `<`
and `>` clauses and the path tokens never appear in `args`. -/
theorem c4_redirection_order (bg : Bool) (w p q : List Char)
    (hw : w ≠ []) (hp : p ≠ []) (hq : q ≠ [])
    (hwP : ∀ c ∈ w, PlainChar c) (hpP : ∀ c ∈ p, PlainChar c)
    (hqP : ∀ c ∈ q, PlainChar c) :
    parser "cat < in.txt > out.txt".data =
        Except.ok [⟨"cat".data, ["cat".data], some "in.txt".data,
          some "out.txt".data, false⟩] ∧
      parser "cat > out.txt < in.txt".data =
        Except.ok [⟨"cat".data, ["cat".data], some "in.txt".data,
          some "out.txt".data, false⟩] ∧
      parseStage bg (w ++ ' ' :: '<' :: ' ' :: (p ++ ' ' :: '>' :: ' ' :: q))
        = some ⟨w, [w], some p, some q, bg⟩ ∧
      parseStage bg (w ++ ' ' :: '>' :: ' ' :: (q ++ ' ' :: '<' :: ' ' :: p))
        = some ⟨w, [w], some p, some q, bg⟩ := by
  refine ⟨by decide, by decide, ?_, ?_⟩
  · obtain ⟨h1, h2, htok⟩ :=
      parse_two_redirs '<' '>' (Or.inl rfl) (Or.inr rfl) (by decide)
        w p q hw hp hq hwP hpP hqP
    simp only [parseStage, h1, h2, htok]
  · obtain ⟨h1, h2, htok⟩ :=
      parse_two_redirs '>' '<' (Or.inr rfl) (Or.inl rfl) (by decide)
        w q p hw hq hp hwP hqP hpP
    simp only [parseStage, h1, h2, htok]

/-- Witness for `c4_redirection_order` at concrete word and paths. -/
theorem c4_witness :
    ("wc".data ≠ ([] : List Char) ∧ (∀ c ∈ "wc".data, PlainChar c) ∧
        (∀ c ∈ "x".data, PlainChar c) ∧ (∀ c ∈ "y".data, PlainChar c)) ∧
      parseStage false
          ("wc".data ++ ' ' :: '<' :: ' ' ::
            ("x".data ++ ' ' :: '>' :: ' ' :: "y".data))
        = some ⟨"wc".data, ["wc".data], some "x".data, some "y".data, false⟩ :=
  ⟨⟨by decide, by decide, by decide, by decide⟩,
    (c4_redirection_order false "wc".data "x".data "y".data (by decide)
        (by decide) (by decide) (by decide) (by decide) (by decide)).2.2.1⟩

end ShellMock

namespace ShellMock

/-- C10 counterexample: the segment `"cat < a <"` contains a redirection
marker (its final `<`) with no following non-whitespace path token, yet
parsing yields `input = some "a"` — not `input = none` as the claim states
for every such segment (the earlier `<` of the segment still matches). -/
theorem c10_counterexample :
    "cat < a <".data.getLast? = some '<' ∧
      parseStage false "cat < a <".data =
        some ⟨"cat".data, ["cat".data, "<".data], some "a".data, none,
          false⟩ := by
  constructor
  · decide
  · decide

/-- C10 (amended): for every segment whose only redirection-marker character
is a single bare trailing one — the marker is followed only by whitespace, no
other `<` or `>` occurs, and the marker stands after whitespace (or alone) —
parsing does not fail: both redirections are `none`, the regex
substitution removes nothing, and the bare marker survives argument
tokenization as the final literal element of `args`; in particular
`"cat <"` parses to `args = ["cat", "<"]` with no redirections. -/
theorem c10_bare_marker (bg : Bool) (m : Char) (t ws : List Char)
    (hm : m = '<' ∨ m = '>')
    (ht : ∀ c ∈ t, ¬ (c = '<' ∨ c = '>'))
    (hws : ∀ c ∈ ws, isSpace c = true)
    (hlast : lastSpaceOk t = true) :
    stripRedirs (t ++ m :: ws) = t ++ m :: ws ∧
      findRedir '<' (t ++ m :: ws) = none ∧
      findRedir '>' (t ++ m :: ws) = none ∧
      stageInput (parseStage bg (t ++ m :: ws)) = some none ∧
      stageOutput (parseStage bg (t ++ m :: ws)) = some none ∧
      lastArg (parseStage bg (t ++ m :: ws)) = some (some [m]) ∧
      parser "cat <".data =
        Except.ok [⟨"cat".data, ["cat".data, "<".data], none, none, false⟩] := by
  have hwsnm : ∀ c ∈ ws, ¬ (c = '<' ∨ c = '>') :=
    fun c hc => space_not_marker (hws c hc)
  have hdws : ws.dropWhile isSpace = [] := dropWhile_of_all ws hws
  have hstrip : stripRedirs (t ++ m :: ws) = t ++ m :: ws := by
    rw [stripRedirs_append ht, stripRedirs_cons_bare hm hdws,
      stripRedirs_no_marker hwsnm]
  have hself : findRedir m (t ++ m :: ws) = none := by
    have hmt : m ∉ t := fun hmem => ht m hmem hm
    rw [findRedir_append hmt, findRedir_cons_self, hdws, List.takeWhile_nil,
      if_pos rfl]
    exact findRedir_not_mem (fun hmem => hwsnm m hmem hm)
  have hother : ∀ m', (m' = '<' ∨ m' = '>') → m' ≠ m →
      findRedir m' (t ++ m :: ws) = none := by
    intro m' hm' hne
    apply findRedir_not_mem
    intro hmem
    simp only [List.mem_append, List.mem_cons] at hmem
    rcases hmem with hmem | hmem | hmem
    · exact ht m' hmem hm'
    · exact hne hmem
    · exact hwsnm m' hmem hm'
  have hfl : findRedir '<' (t ++ m :: ws) = none := by
    rcases hm with rfl | rfl
    · exact hself
    · exact hother '<' (Or.inl rfl) (by decide)
  have hfg : findRedir '>' (t ++ m :: ws) = none := by
    rcases hm with rfl | rfl
    · exact hother '>' (Or.inr rfl) (by decide)
    · exact hself
  have hmns : isSpace m = false := marker_not_space hm
  have htokm : tokAux [m] ([] : List Char) = [[m]] := by
    rw [tokAux_all_notSpace ?hall [] (Or.inl (by simp))]
    · simp
    · intro c hc
      simp only [List.mem_singleton] at hc
      subst hc
      exact hmns
  have htok : pySplitWS (t ++ m :: ws) = pySplitWS t ++ [[m]] := by
    show tokAux (t ++ m :: ws) [] = tokAux t [] ++ [[m]]
    have h1 : t ++ m :: ws = (t ++ [m]) ++ ws := by simp
    rw [h1, tokAux_append_ws hws (t ++ [m]) []]
    unfold lastSpaceOk at hlast
    rcases hh : t.getLast? with _ | c
    · have ht0 : t = [] := List.getLast?_eq_none_iff.mp hh
      subst ht0
      simpa using htokm
    · rw [hh] at hlast
      simp only [Option.map_some', Option.getD_some] at hlast
      obtain ⟨ys, rfl⟩ := List.getLast?_eq_some_iff.mp hh
      have hcl : ∀ d ∈ [c], isSpace d = true := by
        intro d hd
        simp only [List.mem_singleton] at hd
        subst hd
        exact hlast
      have h2 : (ys ++ [c]) ++ [m] = ys ++ c :: [m] := by simp
      rw [h2, tokAux_append_space hlast ys [] [m], htokm,
        tokAux_append_ws hcl ys []]
  have hmain : stageInput (parseStage bg (t ++ m :: ws)) = some none ∧
      stageOutput (parseStage bg (t ++ m :: ws)) = some none ∧
      lastArg (parseStage bg (t ++ m :: ws)) = some (some [m]) := by
    rcases hsp : pySplitWS t with _ | ⟨t0, ts⟩
    · have hps : parseStage bg (t ++ m :: ws)
          = some ⟨[m], [[m]], none, none, bg⟩ := by
        simp only [parseStage, hfl, hfg, hstrip, pySplitWS_pyStrip, htok, hsp,
          List.nil_append]
      rw [hps]
      exact ⟨rfl, rfl, rfl⟩
    · have hps : parseStage bg (t ++ m :: ws)
          = some ⟨t0, t0 :: (ts ++ [[m]]), none, none, bg⟩ := by
        simp only [parseStage, hfl, hfg, hstrip, pySplitWS_pyStrip, htok, hsp,
          List.cons_append]
      rw [hps]
      refine ⟨rfl, rfl, ?_⟩
      simp only [lastArg, Option.map]
      rw [← List.cons_append, List.getLast?_concat]
  exact ⟨hstrip, hfl, hfg, hmain.1, hmain.2.1, hmain.2.2, by decide⟩

end ShellMock

namespace ShellMock

/-- Witness for `c10_bare_marker` at the segment `"cat <"`
(`t = "cat "`, `m = '<'`, `ws = []`). -/
theorem c10_witness :
    ((∀ c ∈ "cat ".data, ¬ (c = '<' ∨ c = '>')) ∧
        lastSpaceOk "cat ".data = true) ∧
      stageInput (parseStage false ("cat ".data ++ '<' :: [])) = some none ∧
      stageOutput (parseStage false ("cat ".data ++ '<' :: [])) = some none ∧
      lastArg (parseStage false ("cat ".data ++ '<' :: []))
        = some (some ['<']) :=
  ⟨⟨by decide, by decide⟩,
    (c10_bare_marker false '<' "cat ".data [] (Or.inl rfl) (by decide)
        (by decide) (by decide)).2.2.2.1,
    (c10_bare_marker false '<' "cat ".data [] (Or.inl rfl) (by decide)
        (by decide) (by decide)).2.2.2.2.1,
    (c10_bare_marker false '<' "cat ".data [] (Or.inl rfl) (by decide)
        (by decide) (by decide)).2.2.2.2.2.1⟩

end ShellMock
